import Mathlib

/-!
Verification development for the local-directory sync subsystem and the
billing-page route of this repository.

The billing-page route (`app/routes/api.billing-page.ts`) is embedded
directly from its TypeScript source.  The sync subsystem
(`ProjectFolderManager`, sync engine, history recorder, settings store) is
described by the repository's design document `SYNC_IMPLEMENTATION.md`; its
implementation file is not part of the sources available here, so those
components are modelled from the specification text, as flagged on each
definition.
-/

namespace Billing

/-- A customer record as used by `api.billing-page.ts`: the database row may
or may not carry a Stripe customer id in its `customerIs` field.  A JS-falsy
field value (missing or the empty string) is modelled as `none` or
`some ""`. -/
structure Customer where
  customerIs : Option String
deriving Repr, DecidableEq

/-- JS truthiness of an optional string: `undefined`/`null` and the empty
string are falsy, every other string is truthy. -/
def truthyStr : Option String → Bool
  | none => false
  | some s => !s.isEmpty

/-- The external collaborators of the billing action: the database lookup
`getCustomerByUserId`, the database write `saveStripeCustomerId` (a falsy
return is `none`), and the two Stripe API calls, each of which may throw
(modelled as `Except Unit`). -/
structure BillingEnv where
  getCustomerByUserId : String → Option Customer
  stripeCustomersCreate : String → Except Unit String
  saveStripeCustomerId : String → String → Option Customer
  billingPortalCreate : String → Except Unit String

/-- A `json(...)` response produced by the action: either an error object
with an HTTP status, or a success object carrying the portal URL. -/
inductive BillingResponse where
  | errorResp (msg : String) (status : Nat)
  | urlResp (url : String)
deriving Repr, DecidableEq

/-- The observable external calls the action can make, in order. -/
inductive BillingEffect where
  | lookup
  | stripeCreate
  | saveCustomer
  | portalCreate
deriving Repr, DecidableEq

/-- Embedding of the `action` export of `app/routes/api.billing-page.ts`.
The request body's `userId` is `none` when absent; the function returns the
response together with the trace of external calls actually performed. -/
def billingAction (env : BillingEnv) (userId : Option String) :
    BillingResponse × List BillingEffect :=
  if !truthyStr userId then
    (.errorResp "User not authenticated" 401, [])
  else
    let uid := userId.getD ""
    let customer := env.getCustomerByUserId uid
    let doPortal : Customer → List BillingEffect → BillingResponse × List BillingEffect :=
      fun c trace =>
        match env.billingPortalCreate (c.customerIs.getD "") with
        | .ok url => (.urlResp url, trace ++ [.portalCreate])
        | .error _ =>
            (.errorResp "Unable to create Billing Portal session" 500,
             trace ++ [.portalCreate])
    if truthyStr (customer.bind (·.customerIs)) then
      match customer with
      | some c => doPortal c [.lookup]
      | none => (.errorResp "Unable to create Stripe customer" 500, [.lookup])
    else
      match env.stripeCustomersCreate uid with
      | .error _ =>
          (.errorResp "Unable to create Stripe customer" 500,
           [.lookup, .stripeCreate])
      | .ok newId =>
          match env.saveStripeCustomerId uid newId with
          | none =>
              (.errorResp "Unable to create Stripe customer" 500,
               [.lookup, .stripeCreate, .saveCustomer])
          | some c => doPortal c [.lookup, .stripeCreate, .saveCustomer]

end Billing

namespace Billing

end Billing

namespace Sync

/-- Modelled from the spec: ASCII lower-casing of a single character, used by
the Registry's project-name normalization ("lower-cases").  The sync
implementation file is not among the available sources; only its design
document is. -/
def lowerChar (c : Char) : Char :=
  if 65 ≤ c.toNat ∧ c.toNat ≤ 90 then Char.ofNat (c.toNat + 32) else c

/-- Modelled from the spec: an alphanumeric (ASCII letter or digit)
character; every other character counts as a separator to be stripped. -/
def isAlnumChar (c : Char) : Bool :=
  decide ((48 ≤ c.toNat ∧ c.toNat ≤ 57) ∨ (65 ≤ c.toNat ∧ c.toNat ≤ 90) ∨
    (97 ≤ c.toNat ∧ c.toNat ≤ 122))

/-- Modelled from the spec: normalization of one character — lower-case the
alphanumerics, turn every separator into a space (to be collapsed). -/
def normChar (c : Char) : Char :=
  if isAlnumChar c then lowerChar c else ' '

/-- Splits a character list into its space-separated words; `cur` holds the
(reversed) word currently being read. -/
def wordsAux : List Char → List Char → List (List Char)
  | cur, [] => if cur.isEmpty then [] else [cur.reverse]
  | cur, c :: cs =>
    if c = ' ' then
      if cur.isEmpty then wordsAux [] cs else cur.reverse :: wordsAux [] cs
    else wordsAux (c :: cur) cs

/-- The space-separated words of a character list. -/
def words (l : List Char) : List (List Char) :=
  wordsAux [] l

/-- Joins words with single spaces. -/
def joinWords : List (List Char) → List Char
  | [] => []
  | [w] => w
  | w :: w' :: ws => w ++ ' ' :: joinWords (w' :: ws)

/-- Modelled from the spec: `ProjectFolderManager._normalizeProjectName` —
"lower-cases, strips non-alphanumeric separators, collapses whitespace". -/
def _normalizeProjectName (name : String) : String :=
  ⟨joinWords (words (name.data.map normChar))⟩

theorem toNat_ofNat_valid (n : Nat) (h : n.isValidChar) : (Char.ofNat n).toNat = n := by
  rw [Char.ofNat, dif_pos h]
  rfl

theorem toNat_lowerChar_of_upper (c : Char) (h : 65 ≤ c.toNat ∧ c.toNat ≤ 90) :
    (lowerChar c).toNat = c.toNat + 32 := by
  have hv : (c.toNat + 32).isValidChar := Or.inl (by omega)
  rw [lowerChar, if_pos h, toNat_ofNat_valid _ hv]

theorem lowerChar_of_not_upper (c : Char) (h : ¬(65 ≤ c.toNat ∧ c.toNat ≤ 90)) :
    lowerChar c = c := by
  rw [lowerChar, if_neg h]

theorem lowerChar_lowerChar (c : Char) : lowerChar (lowerChar c) = lowerChar c := by
  by_cases h : 65 ≤ c.toNat ∧ c.toNat ≤ 90
  · have ht := toNat_lowerChar_of_upper c h
    exact lowerChar_of_not_upper _ (by omega)
  · rw [lowerChar_of_not_upper c h, lowerChar_of_not_upper c h]

theorem isAlnumChar_lowerChar (c : Char) (h : isAlnumChar c = true) :
    isAlnumChar (lowerChar c) = true := by
  by_cases hu : 65 ≤ c.toNat ∧ c.toNat ≤ 90
  · have ht := toNat_lowerChar_of_upper c hu
    simp only [isAlnumChar, decide_eq_true_eq] at *
    omega
  · rwa [lowerChar_of_not_upper c hu]

theorem normChar_space : normChar ' ' = ' ' := by decide

theorem normChar_normChar (c : Char) : normChar (normChar c) = normChar c := by
  by_cases h : isAlnumChar c = true
  · simp only [normChar, h, if_true, isAlnumChar_lowerChar c h, lowerChar_lowerChar]
  · simp only [normChar, h, Bool.false_eq_true, if_false]
    exact normChar_space

theorem wordsAux_append_word (w : List Char) :
    ∀ (cur l : List Char), (∀ c ∈ w, c ≠ ' ') →
      wordsAux cur (w ++ l) = wordsAux (w.reverse ++ cur) l := by
  induction w with
  | nil => intro cur l _; simp
  | cons c w' ih =>
    intro cur l hw
    have hc : c ≠ ' ' := hw c (by simp)
    have hrest : ∀ d ∈ w', d ≠ ' ' := fun d hd => hw d (by simp [hd])
    simp only [List.cons_append, wordsAux, if_neg hc, List.append_eq]
    rw [ih (c :: cur) l hrest]
    simp [List.append_assoc]

theorem mem_wordsAux (l : List Char) :
    ∀ cur : List Char, (∀ c ∈ cur, c ≠ ' ') →
      ∀ w ∈ wordsAux cur l, w ≠ [] ∧ ∀ c ∈ w, c ≠ ' ' ∧ (c ∈ cur ∨ c ∈ l) := by
  induction l with
  | nil =>
    intro cur hcur w hw
    by_cases hc : cur.isEmpty = true
    · simp [wordsAux, hc] at hw
    · simp only [wordsAux, hc, Bool.false_eq_true, if_false, List.mem_singleton] at hw
      subst hw
      refine ⟨?_, ?_⟩
      · simp only [ne_eq, List.reverse_eq_nil_iff]
        simpa [List.isEmpty_iff] using hc
      · intro c hcm
        have hmem : c ∈ cur := by simpa using hcm
        exact ⟨hcur c hmem, Or.inl hmem⟩
  | cons a as ih =>
    intro cur hcur w hw
    by_cases ha : a = ' '
    · subst ha
      by_cases hc : cur.isEmpty = true
      · simp only [wordsAux, reduceIte, hc, if_true] at hw
        have h := ih [] (by simp) w hw
        exact ⟨h.1, fun c hcw => ⟨(h.2 c hcw).1, Or.inr <| by
          rcases (h.2 c hcw).2 with h' | h'
          · simp at h'
          · exact List.mem_cons_of_mem _ h'⟩⟩
      · simp only [wordsAux, reduceIte, hc, Bool.false_eq_true, if_false,
          List.mem_cons] at hw
        rcases hw with hw | hw
        · subst hw
          refine ⟨?_, ?_⟩
          · simp only [ne_eq, List.reverse_eq_nil_iff]
            simpa [List.isEmpty_iff] using hc
          · intro c hcm
            have hmem : c ∈ cur := by simpa using hcm
            exact ⟨hcur c hmem, Or.inl hmem⟩
        · have h := ih [] (by simp) w hw
          exact ⟨h.1, fun c hcw => ⟨(h.2 c hcw).1, Or.inr <| by
            rcases (h.2 c hcw).2 with h' | h'
            · simp at h'
            · exact List.mem_cons_of_mem _ h'⟩⟩
    · simp only [wordsAux, if_neg ha] at hw
      have hcur' : ∀ c ∈ a :: cur, c ≠ ' ' := by
        intro c hc
        rcases List.mem_cons.mp hc with rfl | hc
        · exact ha
        · exact hcur c hc
      have h := ih (a :: cur) hcur' w hw
      refine ⟨h.1, fun c hcw => ⟨(h.2 c hcw).1, ?_⟩⟩
      rcases (h.2 c hcw).2 with h' | h'
      · rcases List.mem_cons.mp h' with rfl | h'
        · exact Or.inr (List.mem_cons_self _ _)
        · exact Or.inl h'
      · exact Or.inr (List.mem_cons_of_mem _ h')

theorem words_joinWords (ws : List (List Char))
    (h : ∀ w ∈ ws, w ≠ [] ∧ ∀ c ∈ w, c ≠ ' ') : words (joinWords ws) = ws := by
  induction ws with
  | nil => rfl
  | cons w ws ih =>
    have hw := h w (by simp)
    have hrev : w.reverse.isEmpty = false := by
      simp [List.isEmpty_iff, hw.1]
    cases ws with
    | nil =>
      show wordsAux [] (joinWords [w]) = [w]
      rw [joinWords]
      calc wordsAux ([] : List Char) w = wordsAux [] (w ++ []) := by
            rw [List.append_nil]
        _ = wordsAux (w.reverse ++ []) [] := wordsAux_append_word w [] [] hw.2
        _ = [w] := by simp [wordsAux, hrev]
    | cons w' ws' =>
      show wordsAux [] (joinWords (w :: w' :: ws')) = w :: w' :: ws'
      rw [joinWords]
      have ihh := ih fun u hu => h u (List.mem_cons_of_mem _ hu)
      rw [words] at ihh
      calc wordsAux ([] : List Char) (w ++ ' ' :: joinWords (w' :: ws'))
          = wordsAux (w.reverse ++ []) (' ' :: joinWords (w' :: ws')) :=
            wordsAux_append_word w [] _ hw.2
        _ = w :: w' :: ws' := by
            simp [wordsAux, hrev, ihh]

theorem mem_joinWords (c : Char) : ∀ ws : List (List Char),
    c ∈ joinWords ws → c = ' ' ∨ ∃ w ∈ ws, c ∈ w := by
  intro ws
  induction ws with
  | nil => intro hc; simp [joinWords] at hc
  | cons w ws ih =>
    intro hc
    cases ws with
    | nil => exact Or.inr ⟨w, by simp, by simpa [joinWords] using hc⟩
    | cons w' ws' =>
      rw [joinWords] at hc
      rcases List.mem_append.mp hc with h | h
      · exact Or.inr ⟨w, by simp, h⟩
      · rcases List.mem_cons.mp h with rfl | h
        · exact Or.inl rfl
        · rcases ih h with h' | ⟨u, hu, hcu⟩
          · exact Or.inl h'
          · exact Or.inr ⟨u, List.mem_cons_of_mem _ hu, hcu⟩

theorem map_normChar_fixed (l : List Char) (h : ∀ c ∈ l, normChar c = c) :
    l.map normChar = l := by
  induction l with
  | nil => rfl
  | cons c cs ih =>
    simp only [List.map_cons, h c (by simp), ih fun d hd => h d (by simp [hd])]

end Sync

namespace Sync

/-- C2: the Registry's project-name normalization is idempotent — for every
string `x`, `normalize (normalize x) = normalize x`. -/
theorem normalizeProjectName_idem (x : String) :
    _normalizeProjectName (_normalizeProjectName x) = _normalizeProjectName x := by
  rw [_normalizeProjectName, _normalizeProjectName]
  have hfix : ∀ c ∈ x.data.map normChar, normChar c = c := by
    intro c hc
    rcases List.mem_map.mp hc with ⟨d, _, rfl⟩
    exact normChar_normChar d
  have hws : ∀ w ∈ words (x.data.map normChar),
      w ≠ [] ∧ ∀ c ∈ w, c ≠ ' ' ∧ (c ∈ ([] : List Char) ∨ c ∈ x.data.map normChar) :=
    mem_wordsAux (x.data.map normChar) [] (by simp)
  have hjfix : ∀ c ∈ joinWords (words (x.data.map normChar)), normChar c = c := by
    intro c hc
    rcases mem_joinWords c (words (x.data.map normChar)) hc with rfl | ⟨w, hw, hcw⟩
    · exact normChar_space
    · rcases ((hws w hw).2 c hcw).2 with h | h
      · simp at h
      · exact hfix c h
  show String.mk (joinWords (words ((joinWords (words (x.data.map normChar))).map normChar))) =
    String.mk (joinWords (words (x.data.map normChar)))
  rw [map_normChar_fixed _ hjfix,
    words_joinWords _ fun w hw => ⟨(hws w hw).1, fun c hc => ((hws w hw).2 c hc).1⟩]

end Sync

namespace Sync

/-- Modelled from the spec: `ProjectSyncInfo` — one record per known
project: `{projectName, folderName, lastSync}`. -/
structure ProjectSyncInfo where
  projectName : String
  folderName : String
  lastSync : Nat
deriving Repr, DecidableEq

/-- Modelled from the spec: the observable state of the user-granted root
directory handle — whether the capability has been revoked, which folders
exist under it, and which of them fail the write test. -/
structure RootDir where
  revoked : Bool
  folders : List String
  badFolders : List String
deriving Repr, DecidableEq

/-- Modelled from the spec: the `ProjectFolderManager`'s state — the root
handle plus the persisted registry, an association list keyed by normalized
project name. -/
structure RegState where
  root : RootDir
  reg : List (String × ProjectSyncInfo)
deriving Repr, DecidableEq

/-- Modelled from the spec: `findExisting(name)` — look up the registry by
normalized key. -/
def findExistingProject (reg : List (String × ProjectSyncInfo))
    (projectName : String) : Option ProjectSyncInfo :=
  (reg.find? fun p => p.1 == _normalizeProjectName projectName).map (·.2)

/-- Modelled from the spec: `verifyFolder(rootHandle, folderName)` — the
folder still exists under the root, the handle is not revoked, and the test
write succeeds; it does not create anything. -/
def verifyProjectFolder (root : RootDir) (folderName : String) : Bool :=
  !root.revoked && root.folders.contains folderName &&
    !root.badFolders.contains folderName

/-- Modelled from the spec: `register(name, folderName)` — insert or update
the mapping for the name's normalized key with the current timestamp. -/
def registerProject (reg : List (String × ProjectSyncInfo))
    (projectName folderName : String) (now : Nat) :
    List (String × ProjectSyncInfo) :=
  let key := _normalizeProjectName projectName
  (key, ⟨projectName, folderName, now⟩) :: reg.filter fun p => p.1 != key

/-- Modelled from the spec: the filesystem-safe slug of a project name — the
normalized name with spaces turned into dashes, truncated to a
filesystem-safe length. -/
def projectSlug (name : String) : String :=
  ⟨((_normalizeProjectName name).data.map fun c =>
    if c = ' ' then '-' else c).take 32⟩

/-- Modelled from the spec: collision tie-break — append an incrementing
numeric suffix (`-2`, `-3`, …) to the slug until a name not already in use
is found. -/
def freshFolderName (used : List String) (slug : String) : String :=
  if used.contains slug then
    match (List.range (used.length + 1)).find?
        (fun i => !used.contains (slug ++ "-" ++ toString (i + 2))) with
    | some i => slug ++ "-" ++ toString (i + 2)
    | none => slug ++ "-" ++ toString (used.length + 3)
  else slug

/-- The failure conditions of `resolve`. -/
inductive ResolveError where
  | permissionDenied
  | notFound
deriving Repr, DecidableEq

/-- Modelled from the spec: creation of a fresh project folder — pick an
unused folder name from the slug (a folder already present under the root or
registered to a project is in use — a folder registered to a different
project is never silently reused), create it under the root, and register
the mapping. -/
def createProjectFolder (st : RegState) (projectName : String) (now : Nat) :
    String × ProjectSyncInfo × RegState :=
  let used := st.root.folders ++ st.reg.map fun p => p.2.folderName
  let folder := freshFolderName used (projectSlug projectName)
  (folder, ⟨projectName, folder, now⟩,
    ⟨{ st.root with folders := folder :: st.root.folders },
     registerProject st.reg projectName folder now⟩)

/-- Modelled from the spec: `resolve(rootHandle, name, createIfMissing)` —
fail with `PermissionDenied` if the root handle is revoked; otherwise look up
the existing mapping and verify its folder (on verification failure fall back
to creating/matching a folder named after the project); with no mapping,
create and register a fresh folder when `createIfMissing`, else fail with
`NotFound`. -/
def getOrCreateProjectFolder (st : RegState) (projectName : String)
    (createIfNotExists : Bool) (now : Nat) :
    Except ResolveError (String × ProjectSyncInfo × RegState) :=
  if st.root.revoked then .error .permissionDenied
  else
    match findExistingProject st.reg projectName with
    | some info =>
      if verifyProjectFolder st.root info.folderName then
        .ok (info.folderName, info, st)
      else
        .ok (createProjectFolder st projectName now)
    | none =>
      if createIfNotExists then .ok (createProjectFolder st projectName now)
      else .error .notFound

/-- The no-drift property over a sequence of further `resolve` calls with the
same project name and root: at each call, provided `verifyFolder` succeeds on
the folder, the call returns that same folder name. -/
def stableChain (st : RegState) (projectName f : String) :
    List (Bool × Nat) → Prop
  | [] => True
  | (c, now) :: rest =>
    verifyProjectFolder st.root f = true →
      ∃ info st',
        getOrCreateProjectFolder st projectName c now = .ok (f, info, st') ∧
          stableChain st' projectName f rest

theorem findExisting_registerProject (reg : List (String × ProjectSyncInfo))
    (projectName folderName : String) (now : Nat) :
    findExistingProject (registerProject reg projectName folderName now)
      projectName = some ⟨projectName, folderName, now⟩ := by
  simp [findExistingProject, registerProject, List.find?_cons_of_pos]

theorem createProjectFolder_registers (st : RegState) (n : String) (now : Nat)
    (f : String) (info : ProjectSyncInfo) (st' : RegState)
    (h : createProjectFolder st n now = (f, info, st')) :
    st'.root.revoked = st.root.revoked ∧
      ∃ i, findExistingProject st'.reg n = some i ∧ i.folderName = f := by
  simp only [createProjectFolder, Prod.mk.injEq] at h
  obtain ⟨rfl, rfl, rfl⟩ := h
  exact ⟨rfl, _, findExisting_registerProject _ _ _ _, rfl⟩

theorem resolve_registers (st : RegState) (n : String) (c : Bool) (now : Nat)
    (f : String) (info : ProjectSyncInfo) (st' : RegState)
    (h : getOrCreateProjectFolder st n c now = .ok (f, info, st')) :
    st'.root.revoked = false ∧
      ∃ i, findExistingProject st'.reg n = some i ∧ i.folderName = f := by
  by_cases hrev : st.root.revoked
  · simp [getOrCreateProjectFolder, hrev] at h
  · rw [getOrCreateProjectFolder, if_neg hrev] at h
    cases hfind : findExistingProject st.reg n with
    | some i =>
      simp only [hfind] at h
      by_cases hver : verifyProjectFolder st.root i.folderName = true
      · rw [if_pos hver] at h
        simp only [Except.ok.injEq, Prod.mk.injEq] at h
        obtain ⟨rfl, rfl, rfl⟩ := h
        exact ⟨by simpa using hrev, i, hfind, rfl⟩
      · rw [if_neg hver] at h
        simp only [Except.ok.injEq] at h
        have hc := createProjectFolder_registers st n now _ _ _ h
        exact ⟨hc.1.trans (by simpa using hrev), hc.2⟩
    | none =>
      simp only [hfind] at h
      by_cases hc : c = true
      · rw [if_pos hc] at h
        simp only [Except.ok.injEq] at h
        have hcr := createProjectFolder_registers st n now _ _ _ h
        exact ⟨hcr.1.trans (by simpa using hrev), hcr.2⟩
      · rw [if_neg hc] at h
        exact absurd h (by simp)

theorem resolve_step (st : RegState) (n : String) (c : Bool) (now : Nat)
    (f : String) (i : ProjectSyncInfo)
    (hfind : findExistingProject st.reg n = some i) (hfn : i.folderName = f)
    (hrev : st.root.revoked = false)
    (hver : verifyProjectFolder st.root f = true) :
    getOrCreateProjectFolder st n c now = .ok (f, i, st) := by
  rw [getOrCreateProjectFolder, if_neg (by simp [hrev])]
  simp only [hfind]
  rw [hfn, if_pos hver]

/-- C1: for every root and project name, once a `resolve` call has
successfully created and registered a folder for that name, every chain of
subsequent `resolve` calls with the same name and root keeps returning the
same folder name, provided `verifyFolder` succeeds on it at each call. -/
theorem resolve_no_drift (st₀ st₁ : RegState) (projectName : String)
    (c₀ : Bool) (now₀ : Nat) (f : String) (info₀ : ProjectSyncInfo)
    (hfirst : getOrCreateProjectFolder st₀ projectName c₀ now₀ =
      .ok (f, info₀, st₁))
    (calls : List (Bool × Nat)) :
    stableChain st₁ projectName f calls := by
  have hinv := resolve_registers st₀ projectName c₀ now₀ f info₀ st₁ hfirst
  clear hfirst
  induction calls generalizing st₁ with
  | nil => trivial
  | cons call rest ih =>
    obtain ⟨hrev, i, hfind, hfn⟩ := hinv
    obtain ⟨c, now⟩ := call
    intro hver
    exact ⟨i, st₁, resolve_step st₁ projectName c now f i hfind hfn hrev hver,
      ih st₁ ⟨hrev, i, hfind, hfn⟩⟩

/-- Witness for C1: the first resolve of "My App" from an empty state creates
folder "my-app"; a chain of two further calls keeps returning it. -/
theorem resolve_no_drift_witness :
    getOrCreateProjectFolder ⟨⟨false, [], []⟩, []⟩ "My App" true 1 =
        .ok ("my-app", ⟨"My App", "my-app", 1⟩,
          ⟨⟨false, ["my-app"], []⟩, [("my app", ⟨"My App", "my-app", 1⟩)]⟩) ∧
      stableChain ⟨⟨false, ["my-app"], []⟩,
          [("my app", ⟨"My App", "my-app", 1⟩)]⟩ "My App" "my-app"
        [(false, 5), (true, 6)] :=
  ⟨rfl,
   resolve_no_drift ⟨⟨false, [], []⟩, []⟩ _ "My App" true 1 "my-app"
     ⟨"My App", "my-app", 1⟩ rfl [(false, 5), (true, 6)]⟩

end Sync

namespace Sync

theorem append_dash_two_ne (s : String) : ¬(s ++ "-" ++ toString 2 = s) := by
  intro h
  have hlen := congrArg String.length h
  rw [String.length_append, String.length_append] at hlen
  have h1 : ("-" : String).length = 1 := rfl
  have h2 : (toString 2 : String).length = 1 := rfl
  omega

theorem freshFolderName_pair (s : String) :
    freshFolderName [s, s] s = s ++ "-" ++ toString 2 := by
  have hne := append_dash_two_ne s
  rw [freshFolderName, if_pos (by simp)]
  have hr : List.range ([s, s].length + 1) = [0, 1, 2] := rfl
  rw [hr]
  rw [List.find?_cons_of_pos]
  norm_num
  exact hne

/-- C3: two project names with different normalized keys but colliding
filesystem slugs are assigned two distinct folder names — the second one
disambiguated by an appended numeric suffix — each independently resolvable
afterwards to its own folder, so neither project reuses a folder registered
to the other. -/
theorem collision_distinct_folders (n₁ n₂ : String) (t₁ t₂ t₃ t₄ : Nat)
    (hkey : _normalizeProjectName n₁ ≠ _normalizeProjectName n₂)
    (hslug : projectSlug n₁ = projectSlug n₂) :
    ∃ f₁ i₁ st₁ f₂ i₂ st₂,
      getOrCreateProjectFolder ⟨⟨false, [], []⟩, []⟩ n₁ true t₁ =
          .ok (f₁, i₁, st₁) ∧
        getOrCreateProjectFolder st₁ n₂ true t₂ = .ok (f₂, i₂, st₂) ∧
        f₁ ≠ f₂ ∧ i₁.projectName = n₁ ∧ i₂.projectName = n₂ ∧
        (∃ j₁ st₁', getOrCreateProjectFolder st₂ n₁ false t₃ =
          .ok (f₁, j₁, st₁')) ∧
        ∃ j₂ st₂', getOrCreateProjectFolder st₂ n₂ false t₄ =
          .ok (f₂, j₂, st₂') := by
  have hbeq : (_normalizeProjectName n₁ == _normalizeProjectName n₂) = false := by
    simp [hkey]
  have hbeq' : (_normalizeProjectName n₂ == _normalizeProjectName n₁) = false := by
    simp [Ne.symm hkey]
  have hne := append_dash_two_ne (projectSlug n₁)
  have h1 : getOrCreateProjectFolder ⟨⟨false, [], []⟩, []⟩ n₁ true t₁ =
      .ok (projectSlug n₁, ⟨n₁, projectSlug n₁, t₁⟩,
        ⟨⟨false, [projectSlug n₁], []⟩,
         [(_normalizeProjectName n₁, ⟨n₁, projectSlug n₁, t₁⟩)]⟩) := rfl
  have h2 : getOrCreateProjectFolder
      ⟨⟨false, [projectSlug n₁], []⟩,
       [(_normalizeProjectName n₁, ⟨n₁, projectSlug n₁, t₁⟩)]⟩ n₂ true t₂ =
      .ok (projectSlug n₁ ++ "-" ++ toString 2,
        ⟨n₂, projectSlug n₁ ++ "-" ++ toString 2, t₂⟩,
        ⟨⟨false, [projectSlug n₁ ++ "-" ++ toString 2, projectSlug n₁], []⟩,
         [(_normalizeProjectName n₂,
            ⟨n₂, projectSlug n₁ ++ "-" ++ toString 2, t₂⟩),
          (_normalizeProjectName n₁, ⟨n₁, projectSlug n₁, t₁⟩)]⟩) := by
    rw [getOrCreateProjectFolder, if_neg (by simp)]
    have hfind : findExistingProject
        [(_normalizeProjectName n₁, ⟨n₁, projectSlug n₁, t₁⟩)] n₂ = none := by
      simp [findExistingProject, hbeq]
    simp only [hfind, reduceIte]
    simp only [createProjectFolder, registerProject, List.map, List.cons_append,
      List.nil_append, ← hslug, freshFolderName_pair, List.filter, bne, hbeq,
      Bool.not_false]
  have h3 : getOrCreateProjectFolder
      ⟨⟨false, [projectSlug n₁ ++ "-" ++ toString 2, projectSlug n₁], []⟩,
       [(_normalizeProjectName n₂,
          ⟨n₂, projectSlug n₁ ++ "-" ++ toString 2, t₂⟩),
        (_normalizeProjectName n₁, ⟨n₁, projectSlug n₁, t₁⟩)]⟩ n₁ false t₃ =
      .ok (projectSlug n₁, ⟨n₁, projectSlug n₁, t₁⟩,
        ⟨⟨false, [projectSlug n₁ ++ "-" ++ toString 2, projectSlug n₁], []⟩,
         [(_normalizeProjectName n₂,
            ⟨n₂, projectSlug n₁ ++ "-" ++ toString 2, t₂⟩),
          (_normalizeProjectName n₁, ⟨n₁, projectSlug n₁, t₁⟩)]⟩) := by
    rw [getOrCreateProjectFolder, if_neg (by simp)]
    have hfind : findExistingProject
        [(_normalizeProjectName n₂,
           ⟨n₂, projectSlug n₁ ++ "-" ++ toString 2, t₂⟩),
         (_normalizeProjectName n₁, ⟨n₁, projectSlug n₁, t₁⟩)] n₁ =
        some ⟨n₁, projectSlug n₁, t₁⟩ := by
      simp [findExistingProject, hbeq']
    simp only [hfind]
    rw [if_pos (by simp [verifyProjectFolder])]
  have h4 : getOrCreateProjectFolder
      ⟨⟨false, [projectSlug n₁ ++ "-" ++ toString 2, projectSlug n₁], []⟩,
       [(_normalizeProjectName n₂,
          ⟨n₂, projectSlug n₁ ++ "-" ++ toString 2, t₂⟩),
        (_normalizeProjectName n₁, ⟨n₁, projectSlug n₁, t₁⟩)]⟩ n₂ false t₄ =
      .ok (projectSlug n₁ ++ "-" ++ toString 2,
        ⟨n₂, projectSlug n₁ ++ "-" ++ toString 2, t₂⟩,
        ⟨⟨false, [projectSlug n₁ ++ "-" ++ toString 2, projectSlug n₁], []⟩,
         [(_normalizeProjectName n₂,
            ⟨n₂, projectSlug n₁ ++ "-" ++ toString 2, t₂⟩),
          (_normalizeProjectName n₁, ⟨n₁, projectSlug n₁, t₁⟩)]⟩) := by
    rw [getOrCreateProjectFolder, if_neg (by simp)]
    have hfind : findExistingProject
        [(_normalizeProjectName n₂,
           ⟨n₂, projectSlug n₁ ++ "-" ++ toString 2, t₂⟩),
         (_normalizeProjectName n₁, ⟨n₁, projectSlug n₁, t₁⟩)] n₂ =
        some ⟨n₂, projectSlug n₁ ++ "-" ++ toString 2, t₂⟩ := by
      simp [findExistingProject]
    simp only [hfind]
    rw [if_pos (by simp [verifyProjectFolder])]
  exact ⟨_, _, _, _, _, _, h1, h2, fun h => hne h.symm, rfl, rfl,
    ⟨_, _, h3⟩, ⟨_, _, h4⟩⟩

/-- Witness for C3: "aaaaaaaaaaaaaaaaaaaaaaaaaaaaaaaaa" (33 a's) and
"aaaaaaaaaaaaaaaaaaaaaaaaaaaaaaaa" (32 a's) have distinct normalized keys
but identical 32-character slugs. -/
theorem collision_distinct_folders_witness :
    _normalizeProjectName "aaaaaaaaaaaaaaaaaaaaaaaaaaaaaaaaa" ≠
        _normalizeProjectName "aaaaaaaaaaaaaaaaaaaaaaaaaaaaaaaa" ∧
      projectSlug "aaaaaaaaaaaaaaaaaaaaaaaaaaaaaaaaa" =
        projectSlug "aaaaaaaaaaaaaaaaaaaaaaaaaaaaaaaa" ∧
      ∃ f₁ i₁ st₁ f₂ i₂ st₂,
        getOrCreateProjectFolder ⟨⟨false, [], []⟩, []⟩
            "aaaaaaaaaaaaaaaaaaaaaaaaaaaaaaaaa" true 1 = .ok (f₁, i₁, st₁) ∧
          getOrCreateProjectFolder st₁ "aaaaaaaaaaaaaaaaaaaaaaaaaaaaaaaa"
            true 2 = .ok (f₂, i₂, st₂) ∧
          f₁ ≠ f₂ ∧ i₁.projectName = "aaaaaaaaaaaaaaaaaaaaaaaaaaaaaaaaa" ∧
          i₂.projectName = "aaaaaaaaaaaaaaaaaaaaaaaaaaaaaaaa" ∧
          (∃ j₁ st₁', getOrCreateProjectFolder st₂
            "aaaaaaaaaaaaaaaaaaaaaaaaaaaaaaaaa" false 3 = .ok (f₁, j₁, st₁')) ∧
          ∃ j₂ st₂', getOrCreateProjectFolder st₂
            "aaaaaaaaaaaaaaaaaaaaaaaaaaaaaaaa" false 4 = .ok (f₂, j₂, st₂') :=
  ⟨by decide, by decide,
   collision_distinct_folders "aaaaaaaaaaaaaaaaaaaaaaaaaaaaaaaaa"
     "aaaaaaaaaaaaaaaaaaaaaaaaaaaaaaaa" 1 2 3 4 (by decide) (by decide)⟩

end Sync

namespace Sync

/-- Modelled from the spec: the three conflict-handling modes of
`SyncSettings.syncMode`. -/
inductive SyncMode where
  | ask
  | overwrite
  | skip
deriving Repr, DecidableEq

/-- Modelled from the spec: the overall status of a completed run. -/
inductive SyncStatus where
  | success
  | partialSync
  | failed
deriving Repr, DecidableEq

/-- Modelled from the spec: `*` matches any run of characters within one
path segment. -/
def globMatch : List Char → List Char → Bool
  | [], [] => true
  | [], _ :: _ => false
  | '*' :: ps, [] => globMatch ps []
  | '*' :: ps, t :: ts => globMatch ps (t :: ts) || globMatch ('*' :: ps) ts
  | p :: ps, t :: ts => p == t && globMatch ps ts
  | _ :: _, [] => false
termination_by pat text => (text.length, pat.length)

/-- Splits a path into its `/`-separated segments. -/
def splitSeg : List Char → List (List Char)
  | [] => [[]]
  | c :: cs =>
    if c = '/' then [] :: splitSeg cs
    else
      match splitSeg cs with
      | [] => [[c]]
      | s :: ss => (c :: s) :: ss

/-- Modelled from the spec: segment-wise glob matching, where a `**` segment
matches any depth. -/
def segsMatch : List (List Char) → List (List Char) → Bool
  | [], [] => true
  | [], _ :: _ => false
  | p :: ps, ts =>
    if p = ['*', '*'] then
      match ts with
      | [] => segsMatch ps []
      | t :: ts' => segsMatch ps (t :: ts') || segsMatch (p :: ps) ts'
    else
      match ts with
      | [] => false
      | t :: ts' => globMatch p t && segsMatch ps ts'
termination_by pat text => (text.length, pat.length)

/-- Modelled from the spec: whether one exclude pattern matches a relative
path (simple glob semantics: `*` within a segment, `**` any depth). -/
def matchesPattern (pat path : String) : Bool :=
  segsMatch (splitSeg pat.data) (splitSeg path.data)

/-- Modelled from the spec: a path is excluded when any exclude pattern
matches it. -/
def isExcluded (patterns : List String) (path : String) : Bool :=
  patterns.any fun pat => matchesPattern pat path

/-- Modelled from the spec: the traversal set of a run — all project files
except those matching an exclude pattern. -/
def traversalSet (patterns : List String) (files : List (String × List Nat)) :
    List (String × List Nat) :=
  files.filter fun f => !isExcluded patterns f.1

/-- Looks a file up in a destination directory (an association list from
relative path to content bytes). -/
def lookupFile (dest : List (String × List Nat)) (path : String) :
    Option (List Nat) :=
  (dest.find? fun e => e.1 == path).map (·.2)

/-- The evolving state of one sync run over the destination directory:
the directory contents and the per-file outcomes accumulated so far. -/
structure SyncFileResult where
  dest : List (String × List Nat)
  written : List String
  skipped : List String
  failedFiles : List String
  bytes : Nat
deriving Repr, DecidableEq

/-- Modelled from the spec: processing of a single file — on a conflict
apply the sync mode (`overwrite` always writes; `skip` records the file as
skipped, not an error; `ask` awaits an external per-file decision declining
to skip on timeout); creating directories is implicit in path-keyed storage;
a single file's I/O failure is recorded and does not abort the run. -/
def syncFile (mode : SyncMode) (decisions : String → Option Bool)
    (ioFail : String → Bool) (acc : SyncFileResult)
    (file : String × List Nat) : SyncFileResult :=
  let write : SyncFileResult :=
    if ioFail file.1 then
      { acc with failedFiles := acc.failedFiles ++ [file.1] }
    else
      { acc with
        dest := (file.1, file.2) :: acc.dest.filter fun e => e.1 != file.1,
        written := acc.written ++ [file.1],
        bytes := acc.bytes + file.2.length }
  match lookupFile acc.dest file.1 with
  | some _ =>
    match mode with
    | .overwrite => write
    | .skip => { acc with skipped := acc.skipped ++ [file.1] }
    | .ask =>
      match decisions file.1 with
      | some true => write
      | _ => { acc with skipped := acc.skipped ++ [file.1] }
  | none => write

/-- Modelled from the spec: one sync pass — fold the per-file step over the
traversal set, starting from the pre-existing destination contents. -/
def syncRun (mode : SyncMode) (patterns : List String)
    (decisions : String → Option Bool) (ioFail : String → Bool)
    (files dest₀ : List (String × List Nat)) : SyncFileResult :=
  (traversalSet patterns files).foldl (syncFile mode decisions ioFail)
    ⟨dest₀, [], [], [], 0⟩

/-- Modelled from the spec: overall status — `success` when no file failed,
`failed` when files failed and none succeeded, `partial` otherwise. -/
def runStatus (r : SyncFileResult) : SyncStatus :=
  if r.failedFiles.isEmpty then .success
  else if r.written.isEmpty then .failed
  else .partialSync

theorem lookupFile_insert_ne (l : List (String × List Nat)) (x p : String)
    (cx : List Nat) (h : p ≠ x) :
    lookupFile ((x, cx) :: l.filter fun e => e.1 != x) p = lookupFile l p := by
  rw [lookupFile, lookupFile]
  have hx : ((x, cx).1 == p) = false := by simpa using Ne.symm h
  rw [List.find?_cons_of_neg _ (by simpa using hx)]
  congr 1
  induction l with
  | nil => rfl
  | cons e l ih =>
    by_cases he : e.1 = x
    · have hkeep : (e.1 != x) = false := by simp [he]
      have hfind : (e.1 == p) = false := by simp [he, Ne.symm h]
      rw [List.filter_cons, if_neg (by simp [hkeep]),
        List.find?_cons_of_neg _ (by simp [hfind]), ih]
    · have hkeep : (e.1 != x) = true := by simp [he]
      rw [List.filter_cons, if_pos (by simp [hkeep])]
      by_cases hp : (e.1 == p) = true
      · rw [List.find?_cons_of_pos _ (by simpa using hp),
          List.find?_cons_of_pos _ (by simpa using hp)]
      · rw [List.find?_cons_of_neg _ (by simpa using hp),
          List.find?_cons_of_neg _ (by simpa using hp), ih]

theorem lookupFile_insert_self (l : List (String × List Nat)) (x : String)
    (cx : List Nat) :
    lookupFile ((x, cx) :: l.filter fun e => e.1 != x) x = some cx := by
  rw [lookupFile, List.find?_cons_of_pos _ (by simp)]
  rfl

theorem skip_foldl_spec (decisions : String → Option Bool)
    (ioFail : String → Bool) (dest₀ : List (String × List Nat))
    (L : List (String × List Nat)) :
    ∀ acc : SyncFileResult,
      (∀ p c, lookupFile dest₀ p = some c → lookupFile acc.dest p = some c) →
      (∀ p c, lookupFile dest₀ p = some c →
        lookupFile (L.foldl (syncFile .skip decisions ioFail) acc).dest p =
          some c) ∧
      (∀ p c, lookupFile dest₀ p = some c → p ∉ acc.written →
        p ∉ (L.foldl (syncFile .skip decisions ioFail) acc).written) ∧
      (∀ p, p ∈ acc.skipped →
        p ∈ (L.foldl (syncFile .skip decisions ioFail) acc).skipped) ∧
      (∀ p c, lookupFile dest₀ p = some c → p ∈ L.map (·.1) →
        p ∈ (L.foldl (syncFile .skip decisions ioFail) acc).skipped) ∧
      ((∀ q ∈ L, lookupFile dest₀ q.1 = none → ioFail q.1 = false) →
        (L.foldl (syncFile .skip decisions ioFail) acc).failedFiles =
          acc.failedFiles) := by
  induction L with
  | nil =>
    intro acc hacc
    exact ⟨fun p c h => hacc p c h, fun p c h hn => hn, fun p h => h,
      fun p c h hm => by simp at hm, fun _ => rfl⟩
  | cons q L ih =>
    intro acc hacc
    simp only [List.foldl_cons, List.map_cons, List.mem_cons]
    cases hlook : lookupFile acc.dest q.1 with
    | some c' =>
      have hstep : syncFile SyncMode.skip decisions ioFail acc q =
          { acc with skipped := acc.skipped ++ [q.1] } := by
        simp only [syncFile, hlook]
      rw [hstep]
      obtain ⟨ih1, ih2, ih3, ih4, ih5⟩ :=
        ih { acc with skipped := acc.skipped ++ [q.1] } (fun p c h => hacc p c h)
      refine ⟨ih1, fun p c h hn => ih2 p c h hn, fun p h => ih3 p (by simp [h]),
        ?_, fun hio => ih5 fun q' hq' => hio q' (Or.inr hq')⟩
      intro p c h hm
      rcases hm with rfl | hm
      · exact ih3 _ (by simp)
      · exact ih4 p c h hm
    | none =>
      by_cases hio_q : ioFail q.1 = true
      · have hstep : syncFile SyncMode.skip decisions ioFail acc q =
            { acc with failedFiles := acc.failedFiles ++ [q.1] } := by
          simp only [syncFile, hlook, hio_q, if_true]
        rw [hstep]
        obtain ⟨ih1, ih2, ih3, ih4, ih5⟩ :=
          ih { acc with failedFiles := acc.failedFiles ++ [q.1] }
            (fun p c h => hacc p c h)
        have hq0 : lookupFile dest₀ q.1 = none := by
          cases hd : lookupFile dest₀ q.1 with
          | none => rfl
          | some cd => exact absurd (hacc q.1 cd hd) (by simp [hlook])
        refine ⟨ih1, fun p c h hn => ih2 p c h hn, fun p h => ih3 p h, ?_, ?_⟩
        · intro p c h hm
          rcases hm with rfl | hm
          · exact absurd h (by simp [hq0])
          · exact ih4 p c h hm
        · intro hio
          exact absurd (hio q (Or.inl rfl) hq0) (by simp [hio_q])
      · have hio_q' : ioFail q.1 = false := by simpa using hio_q
        have hstep : syncFile SyncMode.skip decisions ioFail acc q =
            { acc with
              dest := (q.1, q.2) :: acc.dest.filter fun e => e.1 != q.1,
              written := acc.written ++ [q.1],
              bytes := acc.bytes + q.2.length } := by
          simp only [syncFile, hlook, hio_q', Bool.false_eq_true, if_false]
        rw [hstep]
        have hne_q : ∀ p c, lookupFile dest₀ p = some c → p ≠ q.1 := by
          intro p c h hpq
          rw [hpq] at h
          exact absurd (hacc q.1 c h) (by simp [hlook])
        have hacc' : ∀ p c, lookupFile dest₀ p = some c →
            lookupFile ((q.1, q.2) :: acc.dest.filter fun e => e.1 != q.1) p =
              some c := by
          intro p c h
          rw [lookupFile_insert_ne _ _ _ _ (hne_q p c h)]
          exact hacc p c h
        obtain ⟨ih1, ih2, ih3, ih4, ih5⟩ :=
          ih { acc with
                dest := (q.1, q.2) :: acc.dest.filter fun e => e.1 != q.1,
                written := acc.written ++ [q.1],
                bytes := acc.bytes + q.2.length } hacc'
        refine ⟨ih1, ?_, fun p h => ih3 p h, ?_,
          fun hio => ih5 fun q' hq' => hio q' (Or.inr hq')⟩
        · intro p c h hn
          refine ih2 p c h ?_
          simp only [List.mem_append, List.mem_singleton]
          rintro (h' | h')
          · exact hn h'
          · exact hne_q p c h h'
        · intro p c h hm
          rcases hm with rfl | hm
          · exact absurd rfl (hne_q _ c h)
          · exact ih4 p c h hm

/-- C4: in `skip` mode, every file already present at the destination keeps
its exact content, is never counted as written, is counted as skipped when
it belongs to the traversal set, and when every destination-absent traversal
file writes successfully the run's overall status is `success`, not
`partial`. -/
theorem skip_mode_preserves_existing (patterns : List String)
    (decisions : String → Option Bool) (ioFail : String → Bool)
    (files dest₀ : List (String × List Nat)) (p : String) (c : List Nat)
    (hpre : lookupFile dest₀ p = some c) :
    lookupFile (syncRun .skip patterns decisions ioFail files dest₀).dest p =
        some c ∧
      p ∉ (syncRun .skip patterns decisions ioFail files dest₀).written ∧
      (p ∈ (traversalSet patterns files).map (·.1) →
        p ∈ (syncRun .skip patterns decisions ioFail files dest₀).skipped) ∧
      ((∀ q ∈ traversalSet patterns files,
          lookupFile dest₀ q.1 = none → ioFail q.1 = false) →
        runStatus (syncRun .skip patterns decisions ioFail files dest₀) =
          .success) := by
  obtain ⟨h1, h2, h3, h4, h5⟩ := skip_foldl_spec decisions ioFail dest₀
    (traversalSet patterns files) ⟨dest₀, [], [], [], 0⟩ (fun p c h => h)
  refine ⟨h1 p c hpre, h2 p c hpre (by simp), fun hm => h4 p c hpre hm, ?_⟩
  intro hio
  rw [runStatus, syncRun]
  rw [h5 hio]
  rfl

/-- Witness for C4: destination contains `a.txt`; a skip-mode run over
`a.txt` and `b.txt` leaves `a.txt` untouched, skips it, and succeeds. -/
theorem skip_mode_preserves_existing_witness :
    lookupFile [("a.txt", [9])] "a.txt" = some [9] ∧
      lookupFile (syncRun .skip [] (fun _ => none) (fun _ => false)
          [("a.txt", [1, 2]), ("b.txt", [3])] [("a.txt", [9])]).dest "a.txt" =
        some [9] ∧
      "a.txt" ∉ (syncRun .skip [] (fun _ => none) (fun _ => false)
        [("a.txt", [1, 2]), ("b.txt", [3])] [("a.txt", [9])]).written ∧
      ("a.txt" ∈ (traversalSet []
          [("a.txt", [1, 2]), ("b.txt", [3])]).map (·.1) →
        "a.txt" ∈ (syncRun .skip [] (fun _ => none) (fun _ => false)
          [("a.txt", [1, 2]), ("b.txt", [3])] [("a.txt", [9])]).skipped) ∧
      ((∀ q ∈ traversalSet [] [("a.txt", [1, 2]), ("b.txt", [3])],
          lookupFile [("a.txt", [9])] q.1 = none → (fun _ => false) q.1 = false) →
        runStatus (syncRun .skip [] (fun _ => none) (fun _ => false)
          [("a.txt", [1, 2]), ("b.txt", [3])] [("a.txt", [9])]) = .success) :=
  ⟨rfl, skip_mode_preserves_existing [] (fun _ => none) (fun _ => false)
    [("a.txt", [1, 2]), ("b.txt", [3])] [("a.txt", [9])] "a.txt" [9] rfl⟩

end Sync

namespace Sync

theorem syncFile_dest_other (mode : SyncMode) (decisions : String → Option Bool)
    (ioFail : String → Bool) (acc : SyncFileResult) (q : String × List Nat)
    (p : String) (h : p ≠ q.1) :
    lookupFile (syncFile mode decisions ioFail acc q).dest p =
      lookupFile acc.dest p := by
  have hwrite : lookupFile (if ioFail q.1 then
      { acc with failedFiles := acc.failedFiles ++ [q.1] }
    else
      { acc with
        dest := (q.1, q.2) :: acc.dest.filter fun e => e.1 != q.1,
        written := acc.written ++ [q.1],
        bytes := acc.bytes + q.2.length } : SyncFileResult).dest p =
      lookupFile acc.dest p := by
    by_cases hio : ioFail q.1 = true
    · rw [if_pos hio]
    · rw [if_neg hio]
      exact lookupFile_insert_ne _ _ _ _ h
  cases hlook : lookupFile acc.dest q.1 with
  | none =>
    simpa only [syncFile, hlook] using hwrite
  | some c' =>
    cases mode with
    | overwrite => simpa only [syncFile, hlook] using hwrite
    | skip => simp only [syncFile, hlook]
    | ask =>
      cases hdec : decisions q.1 with
      | none => simp only [syncFile, hlook, hdec]
      | some b =>
        cases b with
        | true => simpa only [syncFile, hlook, hdec] using hwrite
        | false => simp only [syncFile, hlook, hdec]

theorem foldl_preserves_other (mode : SyncMode)
    (decisions : String → Option Bool) (ioFail : String → Bool)
    (L : List (String × List Nat)) :
    ∀ (acc : SyncFileResult) (p : String), p ∉ L.map (·.1) →
      lookupFile ((L.foldl (syncFile mode decisions ioFail) acc).dest) p =
        lookupFile acc.dest p := by
  induction L with
  | nil => intro acc p _; rfl
  | cons q L ih =>
    intro acc p hp
    simp only [List.map_cons, List.mem_cons, not_or] at hp
    rw [List.foldl_cons, ih _ p hp.2]
    exact syncFile_dest_other mode decisions ioFail acc q p hp.1

theorem overwrite_foldl_write (decisions : String → Option Bool)
    (ioFail : String → Bool) (L : List (String × List Nat)) :
    ∀ (acc : SyncFileResult) (p : String) (content : List Nat),
      (p, content) ∈ L → (L.map (·.1)).Nodup → ioFail p = false →
      lookupFile ((L.foldl (syncFile .overwrite decisions ioFail) acc).dest) p =
        some content := by
  induction L with
  | nil => intro acc p content h _ _; simp at h
  | cons q L ih =>
    intro acc p content hmem hnodup hio
    rw [List.foldl_cons]
    rcases List.mem_cons.mp hmem with rfl | hmem'
    · have hpL : p ∉ L.map (·.1) := by
        simp only [List.map_cons] at hnodup
        exact (List.nodup_cons.mp hnodup).1
      rw [foldl_preserves_other _ _ _ _ _ p hpL]
      cases hlook : lookupFile acc.dest p with
      | none =>
        simp only [syncFile, hlook, hio, Bool.false_eq_true, if_false]
        exact lookupFile_insert_self _ _ _
      | some c' =>
        simp only [syncFile, hlook, hio, Bool.false_eq_true, if_false]
        exact lookupFile_insert_self _ _ _
    · have hnodup' : (L.map (·.1)).Nodup := (List.nodup_cons.mp hnodup).2
      exact ih _ p content hmem' hnodup' hio

/-- C5: in `overwrite` mode, every traversal-set file with a pre-existing
destination entry ends up with destination content equal byte-for-byte to the
source content, provided the project tree is a mapping (no duplicate paths)
and the file's own write does not fail. -/
theorem overwrite_mode_syncs_content (patterns : List String)
    (decisions : String → Option Bool) (ioFail : String → Bool)
    (files dest₀ : List (String × List Nat)) (p : String)
    (content c₀ : List Nat) (hnodup : (files.map (·.1)).Nodup)
    (hmem : (p, content) ∈ traversalSet patterns files)
    (_hpre : lookupFile dest₀ p = some c₀) (hio : ioFail p = false) :
    lookupFile (syncRun .overwrite patterns decisions ioFail files dest₀).dest
      p = some content := by
  have htrav : ((traversalSet patterns files).map (·.1)).Nodup := by
    refine List.Nodup.sublist ?_ hnodup
    exact (List.filter_sublist _).map _
  exact overwrite_foldl_write decisions ioFail (traversalSet patterns files)
    ⟨dest₀, [], [], [], 0⟩ p content hmem htrav hio

/-- Witness for C5: `a.txt` already exists at the destination with stale
bytes and is overwritten with the source bytes. -/
theorem overwrite_mode_syncs_content_witness :
    ([("a.txt", [1, 2]), ("b.txt", [3])].map (·.1)).Nodup ∧
      ("a.txt", [1, 2]) ∈ traversalSet [] [("a.txt", [1, 2]), ("b.txt", [3])] ∧
      lookupFile [("a.txt", [9])] "a.txt" = some [9] ∧
      lookupFile (syncRun .overwrite [] (fun _ => none) (fun _ => false)
          [("a.txt", [1, 2]), ("b.txt", [3])] [("a.txt", [9])]).dest "a.txt" =
        some [1, 2] :=
  ⟨by decide, by decide, rfl,
   overwrite_mode_syncs_content [] (fun _ => none) (fun _ => false)
     [("a.txt", [1, 2]), ("b.txt", [3])] [("a.txt", [9])] "a.txt" [1, 2] [9]
     (by decide) (by decide) rfl rfl⟩

end Sync

namespace Sync

/-- Modelled from the spec: `SyncStatistics` — one per completed run. -/
structure SyncStatistics where
  totalFiles : Nat
  totalSize : Nat
  duration : Nat
  timestamp : Nat
deriving Repr, DecidableEq

/-- Modelled from the spec: `SyncHistoryEntry` — immutable record of one
run, embedding exactly one `SyncStatistics`. -/
structure SyncHistoryEntry where
  id : String
  projectName : String
  timestamp : Nat
  statistics : SyncStatistics
  files : List String
  status : SyncStatus
deriving Repr, DecidableEq

/-- Modelled from the spec: notifications emitted to the notification sink —
started, per-file progress, and the terminal completed-with-status one. -/
inductive SyncNotification where
  | started
  | fileProgress (path : String)
  | completed (status : SyncStatus)
deriving Repr, DecidableEq

/-- Whether a notification is the terminal one of a run. -/
def isTerminal : SyncNotification → Bool
  | .completed _ => true
  | _ => false

/-- The externally observable outcome of one sync run: the history entries
appended by the run, the notifications emitted, and the new registry and
destination states. -/
structure SyncOutcome where
  entries : List SyncHistoryEntry
  notifs : List SyncNotification
  newState : RegState
  newDest : List (String × List Nat)
deriving Repr, DecidableEq

/-- Modelled from the spec: one complete sync operation — resolve the
destination folder via the Registry (recording a `failed` history entry and
one failure notification if resolution fails), otherwise run the engine over
the traversal set, update the project's `lastSync`, record exactly one
history entry and emit started/progress notifications plus exactly one
terminal completed notification. -/
def performSync (st : RegState) (projectName runId : String) (mode : SyncMode)
    (patterns : List String) (decisions : String → Option Bool)
    (ioFail : String → Bool) (files dest₀ : List (String × List Nat))
    (now dur : Nat) : SyncOutcome :=
  match getOrCreateProjectFolder st projectName true now with
  | .error _ =>
    { entries := [⟨runId, projectName, now, ⟨0, 0, dur, now⟩, [], .failed⟩],
      notifs := [.started, .completed .failed],
      newState := st,
      newDest := dest₀ }
  | .ok (folder, _, st') =>
    let r := syncRun mode patterns decisions ioFail files dest₀
    let status := runStatus r
    { entries := [⟨runId, projectName, now,
        ⟨r.written.length + r.skipped.length + r.failedFiles.length,
         r.bytes, dur, now⟩, r.written, status⟩],
      notifs := [.started] ++
        ((traversalSet patterns files).map fun f => .fileProgress f.1) ++
        [.completed status],
      newState := ⟨st'.root, registerProject st'.reg projectName folder now⟩,
      newDest := r.dest }

theorem filter_isTerminal_fileProgress (L : List (String × List Nat)) :
    (L.map fun f => SyncNotification.fileProgress f.1).filter
      (fun n => isTerminal n) = [] := by
  induction L with
  | nil => rfl
  | cons q L ih => simpa [isTerminal] using ih

/-- C6: every sync run — whether its status is success, partial, or failed,
and whether or not folder resolution succeeds — appends exactly one
`SyncHistoryEntry` and emits exactly one terminal notification. -/
theorem performSync_one_entry_one_terminal (st : RegState)
    (projectName runId : String) (mode : SyncMode) (patterns : List String)
    (decisions : String → Option Bool) (ioFail : String → Bool)
    (files dest₀ : List (String × List Nat)) (now dur : Nat) :
    (performSync st projectName runId mode patterns decisions ioFail files
        dest₀ now dur).entries.length = 1 ∧
      ((performSync st projectName runId mode patterns decisions ioFail files
        dest₀ now dur).notifs.filter fun n => isTerminal n).length = 1 := by
  rw [performSync]
  cases hres : getOrCreateProjectFolder st projectName true now with
  | error e => exact ⟨rfl, rfl⟩
  | ok v =>
    obtain ⟨folder, info, st'⟩ := v
    refine ⟨rfl, ?_⟩
    simp only [List.filter_append, List.filter_cons, List.filter_nil,
      filter_isTerminal_fileProgress, isTerminal]
    simp [List.length_append]
    intro a x x₁ hmem ha
    subst ha
    rfl

end Sync

namespace Sync

/-- Modelled from the spec: the time-window filters of the history view. -/
inductive StatsWindow where
  | h24
  | d7
  | d30
  | all
deriving Repr, DecidableEq

/-- Modelled from the spec: the window's cutoff duration in milliseconds
(`none` for "all time"). -/
def StatsWindow.cutoff : StatsWindow → Option Nat
  | .h24 => some (24 * 60 * 60 * 1000)
  | .d7 => some (7 * 24 * 60 * 60 * 1000)
  | .d30 => some (30 * 24 * 60 * 60 * 1000)
  | .all => none

/-- Modelled from the spec: `query(window)` — the history entries whose
timestamp falls within the window. -/
def queryHistory (history : List SyncHistoryEntry) (w : StatsWindow)
    (now : Nat) : List SyncHistoryEntry :=
  match w.cutoff with
  | none => history
  | some d => history.filter fun e => decide (now - d ≤ e.timestamp)

/-- The aggregate metrics over a history window. -/
structure AggregateStats where
  totalSyncs : Nat
  totalFiles : Nat
  totalBytes : Nat
  averageDuration : Nat
deriving Repr, DecidableEq

/-- Modelled from the spec: `aggregate(window)` — totals over the filtered
sequence; `averageDuration` is 0 when the sequence is empty (avoiding the
division by zero). -/
def aggregateHistory (history : List SyncHistoryEntry) (w : StatsWindow)
    (now : Nat) : AggregateStats :=
  let es := queryHistory history w now
  ⟨es.length,
   (es.map fun e => e.statistics.totalFiles).sum,
   (es.map fun e => e.statistics.totalSize).sum,
   if es.length = 0 then 0
   else (es.map fun e => e.statistics.duration).sum / es.length⟩

/-- C7: aggregating over a history window whose filtered entry sequence is
empty reports `averageDuration = 0` instead of failing on a division by
zero. -/
theorem aggregate_empty_window (history : List SyncHistoryEntry)
    (w : StatsWindow) (now : Nat) (h : queryHistory history w now = []) :
    (aggregateHistory history w now).averageDuration = 0 := by
  rw [aggregateHistory]
  simp [h]

/-- Witness for C7: a nonempty history whose 24-hour window is empty. -/
theorem aggregate_empty_window_witness :
    queryHistory [⟨"run1", "proj", 5, ⟨1, 10, 20, 5⟩, ["a.txt"], .success⟩]
        .h24 (200 * 24 * 60 * 60 * 1000) = [] ∧
      (aggregateHistory
        [⟨"run1", "proj", 5, ⟨1, 10, 20, 5⟩, ["a.txt"], .success⟩]
        .h24 (200 * 24 * 60 * 60 * 1000)).averageDuration = 0 :=
  ⟨by decide,
   aggregate_empty_window _ .h24 (200 * 24 * 60 * 60 * 1000) (by decide)⟩

/-- Modelled from the spec: `SyncSettings` — the singleton user settings;
`autoSyncInterval` is measured in minutes. -/
structure SyncSettings where
  autoSync : Bool
  autoSyncInterval : Nat
  syncOnSave : Bool
  excludePatterns : List String
  syncMode : SyncMode
  projectFolders : List (String × ProjectSyncInfo)
deriving Repr, DecidableEq

/-- Modelled from the spec: clamp the auto-sync interval into
[1 minute, 60 minutes]. -/
def clampInterval (n : Nat) : Nat :=
  max 1 (min n 60)

/-- Modelled from the spec: persisting the settings clamps the interval
before the write. -/
def persistSettings (s : SyncSettings) : SyncSettings :=
  { s with autoSyncInterval := clampInterval s.autoSyncInterval }

/-- Modelled from the spec: every mutation of the settings singleton is one
read-modify-write that goes through `persistSettings`. -/
def updateSettings (s : SyncSettings) (f : SyncSettings → SyncSettings) :
    SyncSettings :=
  persistSettings (f s)

/-- C8: every settings mutation leaves `autoSyncInterval` inside
[1 minute, 60 minutes] — the singleton's invariant holds after every
update, whatever the mutation requested. -/
theorem updateSettings_interval_clamped (s : SyncSettings)
    (f : SyncSettings → SyncSettings) :
    1 ≤ (updateSettings s f).autoSyncInterval ∧
      (updateSettings s f).autoSyncInterval ≤ 60 := by
  rw [updateSettings, persistSettings]
  refine ⟨?_, ?_⟩ <;> simp [clampInterval]

end Sync

namespace Billing

/-- C9: a missing or falsy `userId` yields a 401 "User not authenticated"
response, and no external call (customer lookup, Stripe call, or
portal-session creation) is performed. -/
theorem billingAction_unauthenticated (env : BillingEnv) (userId : Option String)
    (h : truthyStr userId = false) :
    billingAction env userId = (.errorResp "User not authenticated" 401, []) := by
  simp [billingAction, h]

/-- Witness for C9 on the concrete inputs `none` and `some ""` with a fully
populated environment. -/
theorem billingAction_unauthenticated_witness :
    truthyStr (none : Option String) = false ∧
    truthyStr (some "") = false ∧
    (∀ env : BillingEnv,
      billingAction env none = (.errorResp "User not authenticated" 401, [])) ∧
    billingAction
      ⟨fun _ => some ⟨some "cus_1"⟩, fun _ => .ok "cus_new",
       fun _ _ => some ⟨some "cus_new"⟩, fun _ => .ok "https://portal"⟩
      (some "") = (.errorResp "User not authenticated" 401, []) :=
  ⟨rfl, rfl,
   fun env => billingAction_unauthenticated env none rfl,
   billingAction_unauthenticated _ (some "") rfl⟩

/-- C10: when the looked-up customer has no truthy `customerIs` and either
the Stripe customer creation throws or saving the new customer id returns a
falsy value, the action answers 500 "Unable to create Stripe customer" and
never calls the billing-portal API. -/
theorem billingAction_create_failure (env : BillingEnv) (userId : Option String)
    (hauth : truthyStr userId = true)
    (hcust : truthyStr ((env.getCustomerByUserId (userId.getD "")).bind
      (·.customerIs)) = false)
    (hfail : env.stripeCustomersCreate (userId.getD "") = .error () ∨
      ∃ newId, env.stripeCustomersCreate (userId.getD "") = .ok newId ∧
        env.saveStripeCustomerId (userId.getD "") newId = none) :
    (billingAction env userId).1 =
        .errorResp "Unable to create Stripe customer" 500 ∧
      BillingEffect.portalCreate ∉ (billingAction env userId).2 := by
  rcases hfail with hthrow | ⟨newId, hok, hsave⟩
  · simp [billingAction, hauth, hcust, hthrow]
  · simp [billingAction, hauth, hcust, hok, hsave]

/-- Witness for C10: a user with no stored Stripe id whose
`stripe.customers.create` call throws. -/
theorem billingAction_create_failure_witness :
    (billingAction
        ⟨fun _ => some ⟨none⟩, fun _ => .error (),
         fun _ _ => some ⟨some "cus_new"⟩, fun _ => .ok "https://portal"⟩
        (some "user-1")).1 =
        BillingResponse.errorResp "Unable to create Stripe customer" 500 ∧
      BillingEffect.portalCreate ∉ (billingAction
        ⟨fun _ => some ⟨none⟩, fun _ => .error (),
         fun _ _ => some ⟨some "cus_new"⟩, fun _ => .ok "https://portal"⟩
        (some "user-1")).2 :=
  billingAction_create_failure _ (some "user-1") rfl rfl (Or.inl rfl)

end Billing
